import Mathlib

/-!
Verification of the dnss DNS/DoH proxy core against its specification.

The definitions below are a shallow embedding of the Go source:
  * DNS name helpers (`fqdn`, `canonicalName`, `countLabel`, `isSubDomain`)
    model the miekg/dns library functions of the same names, for names that
    contain no backslash escapes.
  * `DomainMap.GetMostSpecific` models the most-specific-suffix lookup of
    internal/dnsserver (Go maps become association lists; the Go `for` loop
    over the map becomes the structurally recursive `gmsLoop`).
  * The caching resolver (`wantToCache`, `limitTTL`, `setTTLval`,
    `cacheQuery`, `maintainTick`) models internal/dnsserver's cachingResolver;
    durations are modelled in whole seconds (all tuning constants are whole
    seconds and `setTTL` writes `uint32(d.Seconds())`).
  * The DNS front-end `handler` models Server.Handler, with the library
    calls `dns.Exchange` and the backing resolver's `Query` as oracle
    functions and the random ID channel as an oracle value.
  * The DoH server (`classifyRequest`, `resolveDoH`, `serverResolve`) models
    internal/httpserver Server.Resolve / Server.resolveDoH, with the
    unpadded base64url codec (`b64encode`/`b64decode`) implemented
    concretely and the miekg pack/unpack/exchange calls as oracles.
  * The DoH client error tracking (`setClientError`, `maybeRotateClient`)
    models internal/httpresolver; times are nanoseconds since an epoch,
    `Option Nat` standing for Go's time.Time with `none` the zero time.
-/

namespace Dnss

/-! ### DNS names and labels (miekg/dns helpers, escape-free names) -/

/-- ASCII lowercase of one character. -/
def lowerChar (c : Char) : Char :=
  if 65 ≤ c.toNat ∧ c.toNat ≤ 90 then Char.ofNat (c.toNat + 32) else c

/-- Split a character list on a separator character. -/
def splitOnChar (sep : Char) : List Char → List (List Char)
  | [] => [[]]
  | c :: rest =>
    let r := splitOnChar sep rest
    if c = sep then [] :: r else (c :: r.headD []) :: r.tail

/-- `dns.Fqdn`: append a trailing dot unless the name already ends in one. -/
def fqdn (s : String) : String :=
  if s.data.getLast? = some '.' then s else s ++ "."

/-- `dns.CanonicalName`: lowercased fully-qualified form. -/
def canonicalName (s : String) : String :=
  ⟨(fqdn s).data.map lowerChar⟩

/-- The labels of a name: dot-separated components of the fqdn form,
without the empty component after the trailing dot; the root has none. -/
def labelsOf (s : String) : List (List Char) :=
  let f := (fqdn s).data
  if f = ['.'] then [] else splitOnChar '.' f.dropLast

/-- `dns.CountLabel`: number of labels; 0 for the root. -/
def countLabel (s : String) : Nat :=
  (labelsOf s).length

/-- `dns.IsSubDomain parent child`: the labels of `parent` are a suffix of
the labels of `child`, compared case-insensitively; a domain is a subdomain
of itself, and everything is a subdomain of the root. -/
def isSubDomain (parent child : String) : Bool :=
  List.isSuffixOf ((labelsOf parent).map (List.map lowerChar))
    ((labelsOf child).map (List.map lowerChar))

/-! ### DomainMap -/

/-- A DomainMap is a map from canonical domain name to a value string;
the Go map is modelled as an association list. -/
abbrev DomainMap := List (String × String)

/-- The loop body of `DomainMap.GetMostSpecific`: running state is
`(mc, mv, ok)`, the best label count seen, its value, and whether any
match was kept. -/
def gmsLoop (d : String) : List (String × String) → Nat → String → Bool →
    Nat × String × Bool
  | [], mc, mv, ok => (mc, mv, ok)
  | e :: rest, mc, mv, ok =>
    if isSubDomain e.1 d then
      if mc < countLabel e.1 then gmsLoop d rest (countLabel e.1) e.2 true
      else gmsLoop d rest mc mv ok
    else gmsLoop d rest mc mv ok

/-- `DomainMap.GetMostSpecific`: canonicalize the query, scan the entries,
keep the suffix-matching entry with the largest label count. -/
def GetMostSpecific (m : DomainMap) (domain : String) : String × Bool :=
  let r := gmsLoop (canonicalName domain) m 0 "" false
  (r.2.1, r.2.2)

/-! ### DNS messages -/

/-- `dns.Question`: name, type, class.  Equality is byte-exact. -/
structure Question where
  name : String
  qtype : Nat
  qclass : Nat
deriving DecidableEq

instance : Inhabited Question := ⟨⟨"", 0, 0⟩⟩

/-- A resource record, restricted to the fields the core reads or writes:
the header (name, rrtype, class, ttl) and an opaque rdata payload. -/
structure RR where
  rname : String
  rrtype : Nat
  rclass : Nat
  ttl : Nat
  rdata : String
deriving DecidableEq

instance : Inhabited RR := ⟨⟨"", 0, 0, 0, ""⟩⟩

/-- A DNS message, restricted to the header bits and sections the core
reads or writes. -/
structure DnsMsg where
  id : Nat
  response : Bool
  opcode : Nat
  authoritative : Bool
  truncated : Bool
  rcode : Nat
  question : List Question
  answer : List RR
deriving DecidableEq

/-- `dns.RcodeSuccess` (NoError). -/
def rcodeSuccess : Nat := 0

/-- `dns.RcodeServerFailure` (SERVFAIL). -/
def rcodeServerFailure : Nat := 2

/-- `dns.OpcodeQuery`. -/
def opcodeQuery : Nat := 0

/-! ### Caching resolver (internal/dnsserver cachingResolver) -/

/-- `maxCacheSize`: hard upper bound on cache entries. -/
def maxCacheSize : Nat := 2000

/-- `minTTL` in seconds (2 minutes). -/
def minTTL : Nat := 120

/-- `maxTTL` in seconds (2 hours). -/
def maxTTL : Nat := 7200

/-- `maintenancePeriod` in seconds (30 seconds). -/
def maintenancePeriod : Nat := 30

/-- The cache: Go's `map[dns.Question][]dns.RR`, modelled as an association
list with unique keys; insertion of an absent key is a cons. -/
abbrev Cache := List (Question × List RR)

/-- Go map lookup `c.answer[question]`. -/
def cacheLookup : Cache → Question → Option (List RR)
  | [], _ => none
  | e :: rest, q => if e.1 = q then some e.2 else cacheLookup rest q

/-- `wantToCache`: `true` iff the Go function returns a nil error, i.e.
every cacheability clause holds. -/
def wantToCache (question : Question) (reply : DnsMsg) : Bool :=
  if reply.rcode ≠ rcodeSuccess then false
  else if !reply.response then false
  else if reply.opcode ≠ opcodeQuery then false
  else if reply.answer.length = 0 then false
  else if reply.question.length ≠ 1 then false
  else if reply.truncated then false
  else if reply.question.headD default ≠ question then false
  else true

/-- `limitTTL`: the TTL of the first answer RR, capped at `maxTTL`. -/
def limitTTL (answer : List RR) : Nat :=
  let ttl := (answer.headD default).ttl
  if maxTTL < ttl then maxTTL else ttl

/-- `getTTL`: the TTL of the first answer RR (seconds). -/
def getTTLsec (answer : List RR) : Nat :=
  (answer.headD default).ttl

/-- `setTTL`: write `newTTL` into the TTL header of every RR.  The Go
function mutates the slice in place; the model returns the mutated value,
and aliasing becomes sharing of that value. -/
def setTTLval (answer : List RR) (newTTL : Nat) : List RR :=
  answer.map fun rr => { rr with ttl := newTTL }

/-- `copyRRSlice`: a deep copy of the RR list; value-equal to the input. -/
def copyRRSlice (a : List RR) : List RR :=
  a.map fun rr => rr

/-- One iteration of the `Maintain` loop body over the whole cache (one
maintenance tick): decrement each entry's TTL by `maintenancePeriod`;
if the result is positive, replace the value with an updated copy,
otherwise delete the entry. -/
def maintainTick (cache : Cache) : Cache :=
  cache.filterMap fun e =>
    if maintenancePeriod < getTTLsec e.2 then
      some (e.1, setTTLval (copyRRSlice e.2) (getTTLsec e.2 - maintenancePeriod))
    else none

/-- `cachingResolver.Query`.  The backing resolver is the oracle `back`
(`none` = error).  Returns the reply (or error) and the new cache state.
The write of `setTTL` is shared between the stored entry and the returned
reply, as in the source where both alias the same slice. -/
def cacheQuery (back : DnsMsg → Option DnsMsg) (cache : Cache) (r : DnsMsg) :
    Option DnsMsg × Cache :=
  if r.question.length ≠ 1 then (back r, cache)
  else
    match cacheLookup cache (r.question.headD default) with
    | some answer =>
      (some { id := r.id, response := true, authoritative := false,
              opcode := opcodeQuery, truncated := false, rcode := rcodeSuccess,
              question := r.question, answer := answer }, cache)
    | none =>
      match back r with
      | none => (none, cache)
      | some reply =>
        if !wantToCache (r.question.headD default) reply then (some reply, cache)
        else if limitTTL reply.answer < minTTL then (some reply, cache)
        else if cache.length < maxCacheSize then
          (some { reply with answer := setTTLval reply.answer (limitTTL reply.answer) },
            (r.question.headD default,
              setTTLval reply.answer (limitTTL reply.answer)) :: cache)
        else (some reply, cache)

/-! ### DNS front-end server (Server.Handler) -/

/-- Server configuration: the unqualified-upstream address (empty string =
not configured) and the server-override DomainMap. -/
structure ServerCfg where
  unqUpstream : String
  serverOverrides : DomainMap

/-- The environment of `Server.Handler`: `dns.Exchange` to a given address
(`none` = error), the backing resolver's `Query` (`none` = error), and the
next value received from the random ID channel. -/
structure HandlerEnv where
  exchange : String → DnsMsg → Option DnsMsg
  resolverQuery : DnsMsg → Option DnsMsg
  freshId : Nat

/-- `dns.HandleFailed`: reply to `r` with SERVFAIL (a fresh message via
`SetRcode`: id, opcode and first question copied from `r`). -/
def handleFailed (r : DnsMsg) : DnsMsg :=
  { id := r.id, response := true, opcode := r.opcode, authoritative := false,
    truncated := false, rcode := rcodeServerFailure,
    question := r.question.take 1, answer := [] }

/-- Which branch of `Server.Handler` handled the request. -/
inductive Route
  | failMultiQuestion
  | overrideExchange (addr : String)
  | unqualifiedExchange
  | backingResolver
deriving DecidableEq

/-- The observable outcome of `Server.Handler`: the branch taken, the query
passed to the backing resolver (if it was consulted), and the message
handed to `writeReply` / written by `HandleFailed`.  (UDP truncation inside
`writeReply` is downstream of this message and not modelled.) -/
structure HandlerOutcome where
  route : Route
  upstreamQuery : Option DnsMsg
  written : DnsMsg
deriving DecidableEq

/-- `Server.Handler`. -/
def handler (cfg : ServerCfg) (env : HandlerEnv) (r : DnsMsg) : HandlerOutcome :=
  if r.question.length ≠ 1 then
    ⟨.failMultiQuestion, none, handleFailed r⟩
  else
    let qname := (r.question.headD default).name
    let ov := GetMostSpecific cfg.serverOverrides qname
    if ov.2 then
      match env.exchange ov.1 r with
      | some u => ⟨.overrideExchange ov.1, none, u⟩
      | none => ⟨.overrideExchange ov.1, none, handleFailed r⟩
    else if cfg.unqUpstream ≠ "" ∧ countLabel qname ≤ 1 then
      match env.exchange cfg.unqUpstream r with
      | some u => ⟨.unqualifiedExchange, none, u⟩
      | none => ⟨.unqualifiedExchange, none, handleFailed r⟩
    else
      let rUp := { r with id := env.freshId }
      match env.resolverQuery rUp with
      | none => ⟨.backingResolver, some rUp, handleFailed { rUp with id := r.id }⟩
      | some fromUp => ⟨.backingResolver, some rUp, { fromUp with id := r.id }⟩

/-! ### Unpadded base64url (encoding/base64 RawURLEncoding) -/

/-- The base64url alphabet. -/
def b64alphabet : List Char :=
  "ABCDEFGHIJKLMNOPQRSTUVWXYZabcdefghijklmnopqrstuvwxyz0123456789-_".toList

/-- The character for a 6-bit value. -/
def b64char (n : Nat) : Char := b64alphabet.getD n 'A'

/-- The 6-bit value of a character; `none` for characters outside the
alphabet. -/
def b64val (c : Char) : Option Nat := b64alphabet.findIdx? (· = c)

/-- `base64.RawURLEncoding.EncodeToString` over byte lists. -/
def b64encode : List Nat → List Char
  | [] => []
  | [a] => [b64char (a / 4), b64char (a % 4 * 16)]
  | [a, b] => [b64char (a / 4), b64char (a % 4 * 16 + b / 16), b64char (b % 16 * 4)]
  | a :: b :: c :: rest =>
    b64char (a / 4) :: b64char (a % 4 * 16 + b / 16) ::
      b64char (b % 16 * 4 + c / 64) :: b64char (c % 64) :: b64encode rest

/-- `base64.RawURLEncoding.DecodeString`: rejects invalid characters and a
final quantum of one character; surplus bits of a partial final quantum are
discarded (non-strict mode, as in Go's default decoder). -/
def b64decode : List Char → Option (List Nat)
  | [] => some []
  | [_] => none
  | [c1, c2] => do
    let v1 ← b64val c1
    let v2 ← b64val c2
    pure [v1 * 4 + v2 / 16]
  | [c1, c2, c3] => do
    let v1 ← b64val c1
    let v2 ← b64val c2
    let v3 ← b64val c3
    pure [v1 * 4 + v2 / 16, v2 % 16 * 16 + v3 / 4]
  | c1 :: c2 :: c3 :: c4 :: rest => do
    let v1 ← b64val c1
    let v2 ← b64val c2
    let v3 ← b64val c3
    let v4 ← b64val c4
    let tail ← b64decode rest
    pure ((v1 * 4 + v2 / 16) :: (v2 % 16 * 16 + v3 / 4) :: (v3 % 4 * 64 + v4) :: tail)

/-! ### DoH server (internal/httpserver) -/

/-- The parts of an incoming HTTP request that `Server.Resolve` inspects:
the method, the `dns` form value (`""` when absent), the media type from
`mime.ParseMediaType` on the Content-Type header (`none` = parse error),
the body bytes, and whether reading the body fails. -/
structure HttpReq where
  method : String
  dnsParam : String
  contentType : Option String
  body : List Nat
  bodyReadError : Bool

def statusOK : Nat := 200
def statusBadRequest : Nat := 400
def statusRequestTimeout : Nat := 408
def statusUnsupportedMediaType : Nat := 415
def statusFailedDependency : Nat := 424

/-- The POST body limit: `io.LimitReader(req.Body, 4092)`. -/
def maxBodySize : Nat := 4092

/-- Outcome of the classification part of `Server.Resolve`: either an
early HTTP error status, or the decoded DNS query bytes handed to
`resolveDoH`. -/
inductive ResolveStep
  | respondStatus (code : Nat)
  | toDoH (dnsQuery : List Nat)
deriving DecidableEq

/-- The request classification in `Server.Resolve` (everything before the
call to `resolveDoH`). -/
def classifyRequest (req : HttpReq) : ResolveStep :=
  if req.method = "GET" ∧ req.dnsParam ≠ "" then
    match b64decode req.dnsParam.toList with
    | none => .respondStatus statusBadRequest
    | some q => .toDoH q
  else if req.method = "POST" then
    match req.contentType with
    | none => .respondStatus statusBadRequest
    | some ct =>
      if ct = "application/dns-message" then
        if req.bodyReadError then .respondStatus statusBadRequest
        else .toDoH (req.body.take maxBodySize)
      else .respondStatus statusUnsupportedMediaType
  else .respondStatus statusUnsupportedMediaType

/-- Result of `dns.Exchange` as used by `resolveDoH`: a transport error, a
nil response, or a reply message. -/
inductive ExchangeResult
  | exchangeError
  | nilResponse
  | reply (m : DnsMsg)

/-- The environment of `resolveDoH`: the miekg `Unpack`, `dns.Exchange`
(to the configured upstream) and `Pack` library calls. -/
structure DohEnv where
  unpack : List Nat → Option DnsMsg
  exchange : DnsMsg → ExchangeResult
  pack : DnsMsg → Option (List Nat)

/-- `Server.resolveDoH`: status code and reply body (error bodies are
modelled as empty). -/
def resolveDoH (env : DohEnv) (dnsQuery : List Nat) : Nat × List Nat :=
  match env.unpack dnsQuery with
  | none => (statusBadRequest, [])
  | some r =>
    match env.exchange r with
    | .exchangeError => (statusFailedDependency, [])
    | .nilResponse => (statusRequestTimeout, [])
    | .reply fromUp =>
      match env.pack fromUp with
      | none => (statusFailedDependency, [])
      | some packed => (statusOK, packed)

/-- `Server.Resolve`: classify, then resolve. -/
def serverResolve (env : DohEnv) (req : HttpReq) : Nat × List Nat :=
  match classifyRequest req with
  | .respondStatus c => (c, [])
  | .toDoH q => resolveDoH env q

/-- The DoH GET request carrying message `M` in the `dns` parameter. -/
def dohGetRequest (M : List Nat) : HttpReq :=
  { method := "GET", dnsParam := String.mk (b64encode M), contentType := none,
    body := [], bodyReadError := false }

/-- The DoH POST request carrying message `M` as its body. -/
def dohPostRequest (M : List Nat) : HttpReq :=
  { method := "POST", dnsParam := "", contentType := some "application/dns-message",
    body := M, bodyReadError := false }

/-! ### DoH client resolver error tracking (internal/httpresolver) -/

def nsPerSecond : Nat := 1000000000

/-- `time.Tick(2 * time.Second)` in `Maintain`. -/
def maintainTickPeriodNs : Nat := 2 * nsPerSecond

/-- The rotation threshold `10 * time.Second` in `maybeRotateClient`. -/
def rotationThresholdNs : Nat := 10 * nsPerSecond

/-- The mutable state of the DoH client resolver that error tracking
touches: the current HTTP client (an abstract handle) and `firstErr`
(`none` = Go's zero time.Time). -/
structure ClientState where
  client : Nat
  firstErr : Option Nat
deriving DecidableEq

/-- `httpsResolver.setClientError`, called with every POST outcome
(`errOccurred` = the POST returned an error) at time `now`. -/
def setClientError (st : ClientState) (errOccurred : Bool) (now : Nat) :
    ClientState :=
  if !errOccurred then { st with firstErr := none }
  else
    match st.firstErr with
    | none => { st with firstErr := some now }
    | some _ => st

/-- `httpsResolver.maybeRotateClient` at time `now`; `freshClient` is the
client built by `newClient` (which never fails in the source). -/
def maybeRotateClient (st : ClientState) (now : Nat) (freshClient : Nat) :
    ClientState :=
  match st.firstErr with
  | none => st
  | some t =>
    if rotationThresholdNs < now - t then
      { client := freshClient, firstErr := none }
    else st

/-! ### Concrete sample inputs, used to exercise the theorems -/

def sampleQuestion : Question := ⟨"example.com.", 1, 1⟩

def sampleRR : RR := ⟨"example.com.", 1, 1, 300, "1.2.3.4"⟩

def sampleRequest : DnsMsg :=
  { id := 7, response := false, opcode := 0, authoritative := false,
    truncated := false, rcode := 0, question := [sampleQuestion], answer := [] }

def sampleReply : DnsMsg :=
  { id := 7, response := true, opcode := 0, authoritative := false,
    truncated := false, rcode := 0, question := [sampleQuestion],
    answer := [sampleRR] }

def sampleBack : DnsMsg → Option DnsMsg := fun _ => some sampleReply

def sampleEnv : HandlerEnv :=
  { exchange := fun _ _ => none,
    resolverQuery := fun m => some { m with response := true },
    freshId := 42 }

/-- A 4093-byte message, one byte over the POST body limit. -/
def oversizedMsg : List Nat := List.replicate 4093 0

/-- A DoH environment whose unpack step accepts exactly the 4093-byte
message (a large message whose truncation to 4092 bytes no longer
unpacks). -/
def strictDohEnv : DohEnv :=
  { unpack := fun bs => if bs.length = 4093 then some sampleReply else none,
    exchange := fun _ => .reply sampleReply,
    pack := fun _ => some [0, 1] }

/-- A trivial DoH environment for small witnesses. -/
def plainDohEnv : DohEnv :=
  { unpack := fun _ => none,
    exchange := fun _ => .exchangeError,
    pack := fun _ => none }

/-!
## Theorems

Helper lemmas first, then one theorem per specification claim (with its
witness or counterexample).
-/

/-- Every 6-bit value decodes back from its base64url character. -/
theorem b64val_b64char : ∀ n < 64, b64val (b64char n) = some n := by decide

/-- Decoding inverts encoding on byte lists. -/
theorem b64_roundtrip (bs : List Nat) (h : ∀ x ∈ bs, x < 256) :
    b64decode (b64encode bs) = some bs := by
  induction bs using b64encode.induct with
  | case1 => rfl
  | case2 a =>
    have ha : a < 256 := h a (by simp)
    simp only [b64encode, b64decode]
    rw [b64val_b64char _ (by omega), b64val_b64char _ (by omega)]
    simp only [Option.bind_eq_bind, Option.some_bind, Option.pure_def]
    congr 1
    congr 1
    omega
  | case3 a b =>
    have ha : a < 256 := h a (by simp)
    have hb : b < 256 := h b (by simp)
    simp only [b64encode, b64decode]
    rw [b64val_b64char _ (by omega), b64val_b64char _ (by omega),
      b64val_b64char _ (by omega)]
    simp only [Option.bind_eq_bind, Option.some_bind, Option.pure_def]
    congr 1
    congr 1
    · omega
    · congr 1; omega
  | case4 a b c rest ih =>
    have ha : a < 256 := h a (by simp)
    have hb : b < 256 := h b (by simp)
    have hc : c < 256 := h c (by simp)
    have hrest : ∀ x ∈ rest, x < 256 := fun x hx => h x (by simp [hx])
    simp only [b64encode, b64decode]
    rw [b64val_b64char _ (by omega), b64val_b64char _ (by omega),
      b64val_b64char _ (by omega), b64val_b64char _ (by omega), ih hrest]
    simp only [Option.bind_eq_bind, Option.some_bind, Option.pure_def]
    congr 1
    congr 1
    · omega
    · congr 1
      · omega
      · congr 1; omega

/-- The encoding of a non-empty byte list is non-empty. -/
theorem b64encode_ne_nil (bs : List Nat) (h : bs ≠ []) : b64encode bs ≠ [] := by
  match bs with
  | [] => exact absurd rfl h
  | [a] => simp [b64encode]
  | [a, b] => simp [b64encode]
  | a :: b :: c :: rest => simp [b64encode]

/-- Invariant of the `GetMostSpecific` scanning loop: the running label
count only grows and ends dominating every qualifying entry; the state is
either untouched or comes from a qualifying entry that beat the initial
count; and a match is kept exactly when one beats the initial count. -/
theorem gmsLoop_spec (d : String) (m : List (String × String)) :
    ∀ (mc : Nat) (mv : String) (ok : Bool),
    mc ≤ (gmsLoop d m mc mv ok).1 ∧
    (∀ e ∈ m, isSubDomain e.1 d = true → countLabel e.1 ≤ (gmsLoop d m mc mv ok).1) ∧
    (gmsLoop d m mc mv ok = (mc, mv, ok) ∨
      ∃ e ∈ m, isSubDomain e.1 d = true ∧ mc < countLabel e.1 ∧
        (gmsLoop d m mc mv ok).1 = countLabel e.1 ∧
        (gmsLoop d m mc mv ok).2.1 = e.2 ∧ (gmsLoop d m mc mv ok).2.2 = true) ∧
    ((gmsLoop d m mc mv ok).2.2 = true ↔
      (ok = true ∨ ∃ e ∈ m, isSubDomain e.1 d = true ∧ mc < countLabel e.1)) := by
  induction m with
  | nil =>
    intro mc mv ok
    simp [gmsLoop]
  | cons e rest ih =>
    intro mc mv ok
    by_cases hsd : isSubDomain e.1 d
    · by_cases hlt : mc < countLabel e.1
      · obtain ⟨h1, h2, h3, h4⟩ := ih (countLabel e.1) e.2 true
        have heq : gmsLoop d (e :: rest) mc mv ok =
            gmsLoop d rest (countLabel e.1) e.2 true := by
          simp [gmsLoop, hsd, hlt]
        rw [heq]
        refine ⟨by omega, ?_, ?_, ?_⟩
        · intro e' he' hsd'
          rcases List.mem_cons.mp he' with he' | he'
          · subst he'; exact h1
          · exact h2 e' he' hsd'
        · rcases h3 with h3 | ⟨e', he', hsd', hlt', hr1, hr2, hr3⟩
          · right
            refine ⟨e, List.mem_cons_self e rest, hsd, hlt, ?_, ?_, ?_⟩ <;>
              simp [h3]
          · right
            exact ⟨e', List.mem_cons_of_mem e he', hsd', by omega, hr1, hr2, hr3⟩
        · constructor
          · intro _
            right
            exact ⟨e, List.mem_cons_self e rest, hsd, hlt⟩
          · intro _
            rw [h4]; left; rfl
      · obtain ⟨h1, h2, h3, h4⟩ := ih mc mv ok
        have heq : gmsLoop d (e :: rest) mc mv ok = gmsLoop d rest mc mv ok := by
          simp [gmsLoop, hsd, hlt]
        rw [heq]
        refine ⟨h1, ?_, ?_, ?_⟩
        · intro e' he' hsd'
          rcases List.mem_cons.mp he' with he' | he'
          · subst he'; omega
          · exact h2 e' he' hsd'
        · rcases h3 with h3 | ⟨e', he', rest'⟩
          · left; exact h3
          · right; exact ⟨e', List.mem_cons_of_mem e he', rest'⟩
        · rw [h4]
          constructor
          · rintro (hok | ⟨e', he', h'⟩)
            · left; exact hok
            · right; exact ⟨e', List.mem_cons_of_mem e he', h'⟩
          · rintro (hok | ⟨e', he', hsd', hlt'⟩)
            · left; exact hok
            · rcases List.mem_cons.mp he' with he' | he'
              · subst he'; omega
              · right; exact ⟨e', he', hsd', hlt'⟩
    · obtain ⟨h1, h2, h3, h4⟩ := ih mc mv ok
      have heq : gmsLoop d (e :: rest) mc mv ok = gmsLoop d rest mc mv ok := by
        simp [gmsLoop, hsd]
      rw [heq]
      refine ⟨h1, ?_, ?_, ?_⟩
      · intro e' he' hsd'
        rcases List.mem_cons.mp he' with he' | he'
        · subst he'; simp [hsd] at hsd'
        · exact h2 e' he' hsd'
      · rcases h3 with h3 | ⟨e', he', rest'⟩
        · left; exact h3
        · right; exact ⟨e', List.mem_cons_of_mem e he', rest'⟩
      · rw [h4]
        constructor
        · rintro (hok | ⟨e', he', h'⟩)
          · left; exact hok
          · right; exact ⟨e', List.mem_cons_of_mem e he', h'⟩
        · rintro (hok | ⟨e', he', hsd', hlt'⟩)
          · left; exact hok
          · rcases List.mem_cons.mp he' with he' | he'
            · subst he'; simp [hsd] at hsd'
            · right; exact ⟨e', he', hsd', hlt'⟩

/-- Claim C9, counterexample.  A DomainMap holding only the root entry `"."`:
the root is a proper-or-equal suffix of the canonical query
(`IsSubDomain "." x` holds for every `x`), so the claim requires
`("rootvalue", true)`, yet `GetMostSpecific` returns not-found — the loop
keeps a match only when its label count strictly exceeds the running
maximum, which starts at 0, the root's own label count. -/
theorem gms_root_entry_not_found :
    isSubDomain "." (canonicalName "x.com.") = true ∧
    GetMostSpecific [(".", "rootvalue")] "x.com." = ("", false) := by
  exact ⟨by decide, by decide⟩

/-- Claim C9, amended.  `GetMostSpecific` canonicalizes the query and (i)
reports a match exactly when some entry with at least one label is a
proper-or-equal suffix of the canonical query; (ii) in that case it
returns the value of such an entry whose label count dominates every
suffix-matching entry; (iii) the empty map reports not-found for every
query.  Entries with zero labels (the root `"."`) never qualify. -/
theorem gms_most_specific (m : DomainMap) (x : String) :
    ((GetMostSpecific m x).2 = true ↔
      ∃ e ∈ m, isSubDomain e.1 (canonicalName x) = true ∧ 0 < countLabel e.1) ∧
    ((GetMostSpecific m x).2 = true →
      ∃ e ∈ m, isSubDomain e.1 (canonicalName x) = true ∧ 0 < countLabel e.1 ∧
        (GetMostSpecific m x).1 = e.2 ∧
        ∀ e2 ∈ m, isSubDomain e2.1 (canonicalName x) = true →
          countLabel e2.1 ≤ countLabel e.1) ∧
    GetMostSpecific ([] : DomainMap) x = ("", false) := by
  obtain ⟨h1, h2, h3, h4⟩ := gmsLoop_spec (canonicalName x) m 0 "" false
  refine ⟨?_, ?_, rfl⟩
  · rw [show (GetMostSpecific m x).2 =
      (gmsLoop (canonicalName x) m 0 "" false).2.2 from rfl, h4]
    simp
  · intro hfound
    have hfound2 : (gmsLoop (canonicalName x) m 0 "" false).2.2 = true := hfound
    rcases h3 with h3 | ⟨e, he, hsd, hpos, hr1, hr2, hr3⟩
    · rw [h3] at hfound2
      exact absurd hfound2 (by simp)
    · refine ⟨e, he, hsd, hpos, hr2, ?_⟩
      intro e2 he2 hsd2
      have := h2 e2 he2 hsd2
      omega

/-- Exercises `gms_most_specific` on a concrete map and query. -/
theorem gms_most_specific_witness :
    ∃ e ∈ ([("a.com.", "valueA")] : DomainMap),
      isSubDomain e.1 (canonicalName "b.a.com") = true ∧ 0 < countLabel e.1 :=
  (gms_most_specific [("a.com.", "valueA")] "b.a.com").1.mp (by decide)

/-- Claim C8, counterexample.  With `firstErr` set exactly 10 seconds ago —
non-zero and "at least 10 seconds old" — the claim requires a rotation
that resets `firstErr`, but `maybeRotateClient` compares with a strict
`>` and leaves the state untouched. -/
theorem rotate_at_exactly_ten_seconds :
    (⟨0, some 0⟩ : ClientState).firstErr ≠ none ∧
    rotationThresholdNs ≤ 10 * nsPerSecond - 0 ∧
    maybeRotateClient ⟨0, some 0⟩ (10 * nsPerSecond) 1 = ⟨0, some 0⟩ := by
  refine ⟨by simp, by norm_num [rotationThresholdNs, nsPerSecond], ?_⟩
  simp [maybeRotateClient, rotationThresholdNs, nsPerSecond]

/-- Claim C8, amended.  Every POST outcome updates `firstErr` — a success
clears it to the zero time, a failure sets it to the current time only if
it was previously zero — and the maintenance loop, ticking every 2
seconds, swaps in a fresh client and resets `firstErr` to zero exactly
when `firstErr` is non-zero and strictly more than 10 seconds old. -/
theorem client_error_tracking :
    maintainTickPeriodNs = 2 * nsPerSecond ∧
    (∀ st now, setClientError st false now = { st with firstErr := none }) ∧
    (∀ st now, st.firstErr = none →
      setClientError st true now = { st with firstErr := some now }) ∧
    (∀ st now t, st.firstErr = some t → setClientError st true now = st) ∧
    (∀ st now fc, st.firstErr = none → maybeRotateClient st now fc = st) ∧
    (∀ st now fc t, st.firstErr = some t → rotationThresholdNs < now - t →
      maybeRotateClient st now fc = ⟨fc, none⟩) ∧
    (∀ st now fc t, st.firstErr = some t → now - t ≤ rotationThresholdNs →
      maybeRotateClient st now fc = st) := by
  refine ⟨rfl, ?_, ?_, ?_, ?_, ?_, ?_⟩
  · intro st now
    simp [setClientError]
  · intro st now h
    simp [setClientError, h]
  · intro st now t h
    simp [setClientError, h]
  · intro st now fc h
    simp [maybeRotateClient, h]
  · intro st now fc t h hlt
    simp [maybeRotateClient, h, hlt]
  · intro st now fc t h hle
    simp [maybeRotateClient, h]
    omega

/-- Exercises `client_error_tracking`: a rotation 11 seconds after the
first error installs the fresh client and clears `firstErr`. -/
theorem client_error_tracking_witness :
    maybeRotateClient ⟨3, some 0⟩ (11 * nsPerSecond) 5 = ⟨5, none⟩ :=
  client_error_tracking.2.2.2.2.2.1 ⟨3, some 0⟩ (11 * nsPerSecond) 5 0 rfl
    (by norm_num [rotationThresholdNs, nsPerSecond])

/-- In a list with no duplicate keys, a key determines its value. -/
theorem nodup_keys_val_eq {l : Cache} (h : (l.map Prod.fst).Nodup)
    {q : Question} {x y : List RR} (hx : (q, x) ∈ l) (hy : (q, y) ∈ l) :
    x = y := by
  induction l with
  | nil => cases hx
  | cons e rest ih =>
    simp only [List.map_cons, List.nodup_cons] at h
    rcases List.mem_cons.mp hx with hx' | hx' <;>
      rcases List.mem_cons.mp hy with hy' | hy'
    · rw [← hx'] at hy'
      exact (Prod.mk.injEq _ _ _ _).mp hy'.symm |>.2
    · exfalso
      have hq : e.1 = q := by rw [← hx']
      apply h.1
      rw [hq]
      exact List.mem_map_of_mem Prod.fst hy'
    · exfalso
      have hq : e.1 = q := by rw [← hy']
      apply h.1
      rw [hq]
      exact List.mem_map_of_mem Prod.fst hx'
    · exact ih h.2 hx' hy'

/-- Claim C2.  One maintenance tick: every entry with TTL strictly above the
maintenance period survives as a value-copy of its RR list with every RR
header carrying `TTL - maintenancePeriod`; every surviving entry arises
that way; after the tick every surviving entry's TTL — and the TTL of
every one of its RRs — is positive; and (for a cache with unique keys, as
Go maps have) an entry whose TTL does not exceed the period is deleted. -/
theorem maintain_tick_spec (cache : Cache) :
    (∀ q ans, (q, ans) ∈ cache → maintenancePeriod < getTTLsec ans →
      (q, setTTLval (copyRRSlice ans) (getTTLsec ans - maintenancePeriod)) ∈
        maintainTick cache) ∧
    (∀ e ∈ maintainTick cache, ∃ q ans, (q, ans) ∈ cache ∧
      maintenancePeriod < getTTLsec ans ∧
      e = (q, setTTLval (copyRRSlice ans) (getTTLsec ans - maintenancePeriod))) ∧
    (∀ e ∈ maintainTick cache, 0 < getTTLsec e.2 ∧ ∀ rr ∈ e.2, 0 < rr.ttl) ∧
    ((cache.map Prod.fst).Nodup → ∀ q ans, (q, ans) ∈ cache →
      getTTLsec ans ≤ maintenancePeriod →
      ∀ a, (q, a) ∉ maintainTick cache) := by
  have hsurv : ∀ e ∈ maintainTick cache, ∃ q ans, (q, ans) ∈ cache ∧
      maintenancePeriod < getTTLsec ans ∧
      e = (q, setTTLval (copyRRSlice ans) (getTTLsec ans - maintenancePeriod)) := by
    intro e he
    rcases List.mem_filterMap.mp he with ⟨⟨q, ans⟩, hmem, hf⟩
    by_cases hc : maintenancePeriod < getTTLsec ans
    · rw [if_pos hc] at hf
      exact ⟨q, ans, hmem, hc, (Option.some.injEq _ _).mp hf |>.symm⟩
    · rw [if_neg hc] at hf
      cases hf
  refine ⟨?_, hsurv, ?_, ?_⟩
  · intro q ans hmem hc
    exact List.mem_filterMap.mpr ⟨(q, ans), hmem, by rw [if_pos hc]⟩
  · intro e he
    rcases hsurv e he with ⟨q, ans, hmem, hc, he'⟩
    subst he'
    constructor
    · match ans, hc with
      | rr :: tl, hc =>
        simp only [getTTLsec, setTTLval, copyRRSlice, List.map_cons,
          List.headD_cons]
        simp only [getTTLsec, List.headD_cons] at hc
        omega
    · intro rr hrr
      simp only [setTTLval, copyRRSlice, List.map_map, List.mem_map] at hrr
      rcases hrr with ⟨rr0, hrr0, hrr'⟩
      rw [← hrr']
      simp only [Function.comp]
      omega
  · intro hnd q ans hmem hle a ha
    rcases hsurv (q, a) ha with ⟨q', ans', hmem', hc', he'⟩
    have hq : q' = q := ((Prod.mk.injEq _ _ _ _).mp he').1.symm
    subst hq
    have : ans' = ans := nodup_keys_val_eq hnd hmem' hmem
    subst this
    omega

/-- Exercises `maintain_tick_spec`: a 300-second entry survives a tick
with all TTLs decremented to 270. -/
theorem maintain_tick_witness :
    (sampleQuestion,
      setTTLval (copyRRSlice [sampleRR]) (getTTLsec [sampleRR] - maintenancePeriod)) ∈
      maintainTick [(sampleQuestion, [sampleRR])] :=
  (maintain_tick_spec [(sampleQuestion, [sampleRR])]).1 sampleQuestion [sampleRR]
    (by decide) (by decide)



/-- The cacheability test, spelled out clause by clause. -/
theorem wantToCache_iff (q : Question) (reply : DnsMsg) :
    wantToCache q reply = true ↔
      (reply.rcode = rcodeSuccess ∧ reply.response = true ∧
       reply.opcode = opcodeQuery ∧ reply.answer ≠ [] ∧
       reply.question = [q] ∧ reply.truncated = false) := by
  unfold wantToCache
  split_ifs with h1 h2 h3 h4 h5 h6 h7
  · simp only [Bool.false_eq_true, false_iff]
    intro hc
    exact h1 hc.1
  · simp only [Bool.false_eq_true, false_iff]
    intro hc
    rw [hc.2.1] at h2
    simp at h2
  · simp only [Bool.false_eq_true, false_iff]
    intro hc
    exact h3 hc.2.2.1
  · simp only [Bool.false_eq_true, false_iff]
    intro hc
    exact hc.2.2.2.1 (List.length_eq_zero.mp h4)
  · simp only [Bool.false_eq_true, false_iff]
    intro hc
    rw [hc.2.2.2.2.1] at h5
    exact h5 rfl
  · simp only [Bool.false_eq_true, false_iff]
    intro hc
    rw [hc.2.2.2.2.2] at h6
    simp at h6
  · simp only [Bool.false_eq_true, false_iff]
    intro hc
    rw [hc.2.2.2.2.1] at h7
    exact h7 rfl
  · simp only [true_iff]
    push_neg at h1 h3 h5 h7
    refine ⟨h1, ?_, h3, fun hnil => h4 (by rw [hnil]; rfl), ?_, ?_⟩
    · revert h2
      cases reply.response <;> simp
    · rcases List.length_eq_one.mp h5 with ⟨a, ha⟩
      rw [ha]
      rw [ha] at h7
      simp only [List.headD_cons] at h7
      rw [h7]
    · revert h6
      cases reply.truncated <;> simp

/-- Claim C1.  With exactly one question that misses the cache, the
backing reply is recorded — the cache map changes — if and only if every
cacheability clause holds, the computed TTL is at least `minTTL`, and the
cache is below `maxCacheSize`; the change is exactly the insertion of the
clamped entry, and in every other case (multi-question bypass, cache hit,
backing-resolver error, or any failed clause) `Query` leaves the cache
unchanged. -/
theorem cache_record_iff (back : DnsMsg → Option DnsMsg) (cache : Cache)
    (r : DnsMsg) :
    ((cacheQuery back cache r).2 ≠ cache ↔
      r.question.length = 1 ∧
      cacheLookup cache (r.question.headD default) = none ∧
      ∃ reply, back r = some reply ∧
        reply.rcode = rcodeSuccess ∧ reply.response = true ∧
        reply.opcode = opcodeQuery ∧ reply.answer ≠ [] ∧
        reply.question = [r.question.headD default] ∧ reply.truncated = false ∧
        minTTL ≤ limitTTL reply.answer ∧ cache.length < maxCacheSize) ∧
    (∀ reply, r.question.length = 1 →
      cacheLookup cache (r.question.headD default) = none →
      back r = some reply →
      wantToCache (r.question.headD default) reply = true →
      minTTL ≤ limitTTL reply.answer →
      cache.length < maxCacheSize →
      (cacheQuery back cache r).2 =
        (r.question.headD default,
          setTTLval reply.answer (limitTTL reply.answer)) :: cache) := by
  unfold cacheQuery
  split
  next hlen =>
    refine ⟨⟨fun hne => absurd rfl hne, fun hc => absurd hc.1 hlen⟩, ?_⟩
    intro reply hlen' _ _ _ _ _
    exact absurd hlen' hlen
  next hlen =>
    rw [not_not] at hlen
    split
    next ans heq =>
      refine ⟨⟨fun hne => absurd rfl hne, ?_⟩, ?_⟩
      · rintro ⟨-, hnone, -⟩
        rw [heq] at hnone
        cases hnone
      · intro reply _ hnone _ _ _ _
        rw [heq] at hnone
        cases hnone
    next heq =>
      split
      next hb =>
        refine ⟨⟨fun hne => absurd rfl hne, ?_⟩, ?_⟩
        · rintro ⟨-, -, reply, hb', -⟩
          rw [hb] at hb'
          cases hb'
        · intro reply _ _ hb' _ _ _
          rw [hb] at hb'
          cases hb'
      next reply hb =>
        by_cases hw : wantToCache (r.question.headD default) reply = true
        · rw [hw]
          simp only [Bool.not_true, Bool.false_eq_true, if_false]
          by_cases ht : limitTTL reply.answer < minTTL
          · rw [if_pos ht]
            refine ⟨⟨fun hne => absurd rfl hne, ?_⟩, ?_⟩
            · rintro ⟨-, -, reply2, hb', hcl⟩
              rw [hb] at hb'
              cases hb'
              omega
            · intro reply2 _ _ hb' _ htt _
              rw [hb] at hb'
              cases hb'
              omega
          · rw [if_neg ht]
            by_cases hs : cache.length < maxCacheSize
            · rw [if_pos hs]
              have hcl := (wantToCache_iff _ _).mp hw
              refine ⟨⟨fun _ => ⟨hlen, heq, reply, hb, hcl.1, hcl.2.1,
                  hcl.2.2.1, hcl.2.2.2.1, hcl.2.2.2.2.1, hcl.2.2.2.2.2,
                  by omega, hs⟩, fun _ => ?_⟩, ?_⟩
              · intro habs
                have := congrArg List.length habs
                simp at this
              · intro reply2 _ _ hb' _ _ _
                rw [hb] at hb'
                cases hb'
                rfl
            · rw [if_neg hs]
              refine ⟨⟨fun hne => absurd rfl hne, ?_⟩, ?_⟩
              · rintro ⟨-, -, reply2, hb', hcl⟩
                rw [hb] at hb'
                cases hb'
                exact absurd hcl.2.2.2.2.2.2.2 hs
              · intro reply2 _ _ _ _ _ hs'
                exact absurd hs' hs
        · have hwf : wantToCache (r.question.headD default) reply = false :=
            Bool.eq_false_iff.mpr hw
          rw [hwf]
          simp only [Bool.not_false, if_true]
          refine ⟨⟨fun hne => absurd rfl hne, ?_⟩, ?_⟩
          · rintro ⟨-, -, reply2, hb', hcl⟩
            rw [hb] at hb'
            cases hb'
            exact absurd ((wantToCache_iff _ _).mpr
              ⟨hcl.1, hcl.2.1, hcl.2.2.1, hcl.2.2.2.1, hcl.2.2.2.2.1,
                hcl.2.2.2.2.2.1⟩) hw
          · intro reply2 _ _ hb' hw' _ _
            rw [hb] at hb'
            cases hb'
            exact absurd hw' hw

/-- In the recorded-miss case, `Query` returns the reply with the clamped
answer list and inserts that same list into the cache. -/
theorem cache_record_result (back : DnsMsg → Option DnsMsg) (cache : Cache)
    (r reply : DnsMsg)
    (hlen : r.question.length = 1)
    (hmiss : cacheLookup cache (r.question.headD default) = none)
    (hback : back r = some reply)
    (hwant : wantToCache (r.question.headD default) reply = true)
    (httl : minTTL ≤ limitTTL reply.answer)
    (hsize : cache.length < maxCacheSize) :
    cacheQuery back cache r =
      (some { reply with answer := setTTLval reply.answer (limitTTL reply.answer) },
       (r.question.headD default,
         setTTLval reply.answer (limitTTL reply.answer)) :: cache) := by
  unfold cacheQuery
  rw [if_neg (show ¬r.question.length ≠ 1 from by omega)]
  rw [hmiss, hback]
  dsimp only
  rw [hwant]
  simp only [Bool.not_true, Bool.false_eq_true, if_false]
  rw [if_neg (show ¬limitTTL reply.answer < minTTL from by omega), if_pos hsize]

/-- Claim C5.  Whenever a reply is recorded, the entry's stored TTL is
`min(Answer[0].TTL, maxTTL)` — computed from the first answer RR only —
and that single value is written into the TTL header of every RR of the
stored entry. -/
theorem cache_stored_ttl (back : DnsMsg → Option DnsMsg) (cache : Cache)
    (r reply : DnsMsg)
    (hlen : r.question.length = 1)
    (hmiss : cacheLookup cache (r.question.headD default) = none)
    (hback : back r = some reply)
    (hwant : wantToCache (r.question.headD default) reply = true)
    (httl : minTTL ≤ limitTTL reply.answer)
    (hsize : cache.length < maxCacheSize) :
    limitTTL reply.answer = min ((reply.answer.headD default).ttl) maxTTL ∧
    cacheLookup (cacheQuery back cache r).2 (r.question.headD default) =
      some (setTTLval reply.answer (min ((reply.answer.headD default).ttl) maxTTL)) ∧
    ∀ rr ∈ setTTLval reply.answer (limitTTL reply.answer),
      rr.ttl = min ((reply.answer.headD default).ttl) maxTTL := by
  have h := cache_record_result back cache r reply hlen hmiss hback hwant httl hsize
  have hmin : limitTTL reply.answer =
      min ((reply.answer.headD default).ttl) maxTTL := by
    unfold limitTTL
    dsimp only
    split <;> omega
  refine ⟨hmin, ?_, ?_⟩
  · rw [h, ← hmin]
    simp [cacheLookup]
  · intro rr hrr
    simp only [setTTLval, List.mem_map] at hrr
    rcases hrr with ⟨rr0, -, h0⟩
    rw [← h0]
    exact hmin

/-- Claim C10.  On a recorded miss the returned reply itself already
carries the clamped TTLs: its answer list is the shared, clamped RR list
that was inserted into the cache (every TTL at most `maxTTL`), and all
other fields of the returned reply are unchanged. -/
theorem cache_miss_reply_clamped (back : DnsMsg → Option DnsMsg) (cache : Cache)
    (r reply : DnsMsg)
    (hlen : r.question.length = 1)
    (hmiss : cacheLookup cache (r.question.headD default) = none)
    (hback : back r = some reply)
    (hwant : wantToCache (r.question.headD default) reply = true)
    (httl : minTTL ≤ limitTTL reply.answer)
    (hsize : cache.length < maxCacheSize) :
    (cacheQuery back cache r).1 =
      some { reply with answer := setTTLval reply.answer (limitTTL reply.answer) } ∧
    cacheLookup (cacheQuery back cache r).2 (r.question.headD default) =
      some (setTTLval reply.answer (limitTTL reply.answer)) ∧
    ∀ rr ∈ setTTLval reply.answer (limitTTL reply.answer), rr.ttl ≤ maxTTL := by
  have h := cache_record_result back cache r reply hlen hmiss hback hwant httl hsize
  refine ⟨by rw [h], by rw [h]; simp [cacheLookup], ?_⟩
  intro rr hrr
  simp only [setTTLval, List.mem_map] at hrr
  rcases hrr with ⟨rr0, -, h0⟩
  rw [← h0]
  show limitTTL reply.answer ≤ maxTTL
  unfold limitTTL
  dsimp only
  split <;> omega

/-- Exercises `cache_record_iff`: a 300-second A answer is recorded. -/
theorem cache_record_iff_witness :
    (cacheQuery sampleBack [] sampleRequest).2 =
      (sampleRequest.question.headD default,
        setTTLval sampleReply.answer (limitTTL sampleReply.answer)) :: [] :=
  (cache_record_iff sampleBack [] sampleRequest).2 sampleReply (by decide) rfl
    rfl (by decide) (by decide) (by decide)

/-- Exercises `cache_stored_ttl` on the sample reply. -/
theorem cache_stored_ttl_witness :
    cacheLookup (cacheQuery sampleBack [] sampleRequest).2
        (sampleRequest.question.headD default) =
      some (setTTLval sampleReply.answer
        (min ((sampleReply.answer.headD default).ttl) maxTTL)) :=
  (cache_stored_ttl sampleBack [] sampleRequest sampleReply (by decide) rfl rfl
    (by decide) (by decide) (by decide)).2.1

/-- Exercises `cache_miss_reply_clamped` on the sample reply. -/
theorem cache_miss_reply_clamped_witness :
    (cacheQuery sampleBack [] sampleRequest).1 =
      some { sampleReply with
        answer := setTTLval sampleReply.answer (limitTTL sampleReply.answer) } :=
  (cache_miss_reply_clamped sampleBack [] sampleRequest sampleReply (by decide)
    rfl rfl (by decide) (by decide) (by decide)).1


/-- Claim C4.  The front-end handler routes in this fixed order: not
exactly one question means SERVFAIL and stop; a most-specific override
match means a classical exchange to the matched address (reply on success,
SERVFAIL on error) and stop; a configured unqualified upstream with a
question name of at most one label means the same exchange against that
upstream and stop; only otherwise is the backing resolver consulted.  In
particular a one-label name engages the shortcut and a two-label name does
not. -/
theorem handler_routing (cfg : ServerCfg) (env : HandlerEnv) (r : DnsMsg) :
    (r.question.length ≠ 1 →
      handler cfg env r = ⟨.failMultiQuestion, none, handleFailed r⟩) ∧
    (r.question.length = 1 → ∀ addr,
      GetMostSpecific cfg.serverOverrides ((r.question.headD default).name) =
        (addr, true) →
      handler cfg env r = ⟨.overrideExchange addr, none,
        match env.exchange addr r with
        | some u => u
        | none => handleFailed r⟩) ∧
    (r.question.length = 1 →
      (GetMostSpecific cfg.serverOverrides ((r.question.headD default).name)).2 =
        false →
      cfg.unqUpstream ≠ "" →
      countLabel ((r.question.headD default).name) ≤ 1 →
      handler cfg env r = ⟨.unqualifiedExchange, none,
        match env.exchange cfg.unqUpstream r with
        | some u => u
        | none => handleFailed r⟩) ∧
    (r.question.length = 1 →
      (GetMostSpecific cfg.serverOverrides ((r.question.headD default).name)).2 =
        false →
      ¬(cfg.unqUpstream ≠ "" ∧ countLabel ((r.question.headD default).name) ≤ 1) →
      (handler cfg env r).route = .backingResolver) ∧
    (r.question.length = 1 →
      (GetMostSpecific cfg.serverOverrides ((r.question.headD default).name)).2 =
        false →
      cfg.unqUpstream ≠ "" →
      countLabel ((r.question.headD default).name) = 2 →
      (handler cfg env r).route = .backingResolver) := by
  refine ⟨?_, ?_, ?_, ?_, ?_⟩
  · intro hlen
    simp [handler, hlen]
  · intro hlen addr hov
    unfold handler
    rw [if_neg (show ¬r.question.length ≠ 1 from by omega)]
    simp only [hov]
    cases env.exchange addr r <;> rfl
  · intro hlen hov hunq hcl
    unfold handler
    rw [if_neg (show ¬r.question.length ≠ 1 from by omega)]
    simp only []
    rw [if_neg (show ¬(GetMostSpecific cfg.serverOverrides
      ((r.question.headD default).name)).2 = true from by rw [hov]; simp)]
    rw [if_pos ⟨hunq, hcl⟩]
    cases env.exchange cfg.unqUpstream r <;> rfl
  · intro hlen hov hrest
    unfold handler
    rw [if_neg (show ¬r.question.length ≠ 1 from by omega)]
    simp only []
    rw [if_neg (show ¬(GetMostSpecific cfg.serverOverrides
      ((r.question.headD default).name)).2 = true from by rw [hov]; simp)]
    rw [if_neg hrest]
    cases env.resolverQuery { r with id := env.freshId } <;> rfl
  · intro hlen hov hunq hcl
    unfold handler
    rw [if_neg (show ¬r.question.length ≠ 1 from by omega)]
    simp only []
    rw [if_neg (show ¬(GetMostSpecific cfg.serverOverrides
      ((r.question.headD default).name)).2 = true from by rw [hov]; simp)]
    rw [if_neg (show ¬(cfg.unqUpstream ≠ "" ∧
      countLabel ((r.question.headD default).name) ≤ 1) from by omega)]
    cases env.resolverQuery { r with id := env.freshId } <;> rfl

/-- Exercises `handler_routing`: a configured override routes the sample
request to the override exchange. -/
theorem handler_routing_witness :
    handler ⟨"", [("example.com.", "10.0.0.1:53")]⟩ sampleEnv sampleRequest =
      ⟨.overrideExchange "10.0.0.1:53", none,
        match sampleEnv.exchange "10.0.0.1:53" sampleRequest with
        | some u => u
        | none => handleFailed sampleRequest⟩ :=
  (handler_routing ⟨"", [("example.com.", "10.0.0.1:53")]⟩ sampleEnv
    sampleRequest).2.1 (by decide) "10.0.0.1:53" (by decide)

/-- Claim C3.  For every query forwarded to the backing resolver, the
query sent upstream carries the freshly generated ID and the reply written
back to the client carries the client's original request ID — on the
successful reply and on the SERVFAIL reply sent when the resolver errors
alike. -/
theorem handler_restores_id (cfg : ServerCfg) (env : HandlerEnv) (r : DnsMsg)
    (hlen : r.question.length = 1)
    (hov : (GetMostSpecific cfg.serverOverrides
      ((r.question.headD default).name)).2 = false)
    (hunq : ¬(cfg.unqUpstream ≠ "" ∧
      countLabel ((r.question.headD default).name) ≤ 1)) :
    (handler cfg env r).route = .backingResolver ∧
    (handler cfg env r).upstreamQuery = some { r with id := env.freshId } ∧
    (handler cfg env r).written.id = r.id := by
  have hred : handler cfg env r =
      match env.resolverQuery { r with id := env.freshId } with
      | none => ⟨.backingResolver, some { r with id := env.freshId },
          handleFailed { r with id := r.id }⟩
      | some fromUp => ⟨.backingResolver, some { r with id := env.freshId },
          { fromUp with id := r.id }⟩ := by
    unfold handler
    rw [if_neg (show ¬r.question.length ≠ 1 from by omega)]
    simp only []
    rw [if_neg (show ¬(GetMostSpecific cfg.serverOverrides
      ((r.question.headD default).name)).2 = true from by rw [hov]; simp)]
    rw [if_neg hunq]
  rw [hred]
  cases env.resolverQuery { r with id := env.freshId } with
  | none => exact ⟨rfl, rfl, rfl⟩
  | some fromUp => exact ⟨rfl, rfl, rfl⟩

/-- Exercises `handler_restores_id`: the sample request keeps its id 7. -/
theorem handler_restores_id_witness :
    (handler ⟨"", []⟩ sampleEnv sampleRequest).upstreamQuery =
      some { sampleRequest with id := sampleEnv.freshId } ∧
    (handler ⟨"", []⟩ sampleEnv sampleRequest).written.id = sampleRequest.id :=
  (handler_restores_id ⟨"", []⟩ sampleEnv sampleRequest (by decide) (by decide)
    (by decide)).2



/-- Claim C6, counterexample.  A POST whose Content-Type header fails
media-type parsing (for example, an absent header) is neither a GET with a
`dns` parameter nor a POST with media type `application/dns-message`, so
the claim requires 415; the server answers 400. -/
theorem resolve_post_bad_content_type :
    ¬(("POST" : String) = "GET") ∧
    ({ method := "POST", dnsParam := "", contentType := none, body := [],
       bodyReadError := false } : HttpReq).contentType ≠
      some "application/dns-message" ∧
    classifyRequest { method := "POST", dnsParam := "", contentType := none,
                      body := [], bodyReadError := false } =
      .respondStatus statusBadRequest ∧
    statusBadRequest ≠ statusUnsupportedMediaType := by
  refine ⟨by decide, by decide, by decide, by decide⟩

/-- Claim C6, amended.  The DoH server classifies requests in order: a GET
with a non-empty `dns` parameter is base64url-decoded without padding (400
on decode error); a POST whose Content-Type fails media-type parsing is
answered 400; a POST with media type `application/dns-message` has its
body read up to 4092 bytes (400 on read error); a POST with any other
parsed media type, and any request of any other shape, is answered 415. -/
theorem resolve_classification (req : HttpReq) :
    (req.method = "GET" → req.dnsParam ≠ "" →
      b64decode req.dnsParam.toList = none →
      classifyRequest req = .respondStatus statusBadRequest) ∧
    (∀ q, req.method = "GET" → req.dnsParam ≠ "" →
      b64decode req.dnsParam.toList = some q →
      classifyRequest req = .toDoH q) ∧
    (req.method = "POST" → req.contentType = none →
      classifyRequest req = .respondStatus statusBadRequest) ∧
    (req.method = "POST" → req.contentType = some "application/dns-message" →
      req.bodyReadError = true →
      classifyRequest req = .respondStatus statusBadRequest) ∧
    (req.method = "POST" → req.contentType = some "application/dns-message" →
      req.bodyReadError = false →
      classifyRequest req = .toDoH (req.body.take maxBodySize)) ∧
    (∀ ct, req.method = "POST" → req.contentType = some ct →
      ct ≠ "application/dns-message" →
      classifyRequest req = .respondStatus statusUnsupportedMediaType) ∧
    (¬(req.method = "GET" ∧ req.dnsParam ≠ "") → req.method ≠ "POST" →
      classifyRequest req = .respondStatus statusUnsupportedMediaType) := by
  have hnotget : req.method = "POST" → ¬(req.method = "GET" ∧ req.dnsParam ≠ "") := by
    rintro hm ⟨h1, -⟩
    rw [hm] at h1
    exact absurd h1 (by decide)
  refine ⟨?_, ?_, ?_, ?_, ?_, ?_, ?_⟩
  · intro hm hd hdec
    unfold classifyRequest
    rw [if_pos ⟨hm, hd⟩, hdec]
  · intro q hm hd hdec
    unfold classifyRequest
    rw [if_pos ⟨hm, hd⟩, hdec]
  · intro hm hct
    unfold classifyRequest
    rw [if_neg (hnotget hm), if_pos hm, hct]
  · intro hm hct hre
    unfold classifyRequest
    rw [if_neg (hnotget hm), if_pos hm, hct]
    simp [hre]
  · intro hm hct hre
    unfold classifyRequest
    rw [if_neg (hnotget hm), if_pos hm, hct]
    simp [hre]
  · intro ct hm hct hne
    unfold classifyRequest
    rw [if_neg (hnotget hm), if_pos hm, hct]
    dsimp only
    rw [if_neg hne]
  · intro hget hpost
    unfold classifyRequest
    rw [if_neg hget, if_neg hpost]

/-- Exercises `resolve_classification`: a GET whose `dns` parameter is not
valid base64url is answered 400. -/
theorem resolve_classification_witness :
    classifyRequest { method := "GET", dnsParam := "!!!", contentType := none,
                      body := [], bodyReadError := false } =
      .respondStatus statusBadRequest :=
  (resolve_classification _).1 (by decide) (by decide) (by decide)


/-- A GET carrying the base64url encoding of `M` hands exactly `M` to
`resolveDoH`. -/
theorem classify_get_encoded (M : List Nat) (hbytes : ∀ x ∈ M, x < 256)
    (hne : M ≠ []) : classifyRequest (dohGetRequest M) = .toDoH M := by
  have henc : b64encode M ≠ [] := b64encode_ne_nil M hne
  have hmk : (String.mk (b64encode M)) ≠ "" := fun h =>
    henc (congrArg String.data h)
  unfold classifyRequest dohGetRequest
  dsimp only
  rw [if_pos ⟨rfl, hmk⟩]
  rw [show (String.mk (b64encode M)).toList = b64encode M from rfl]
  rw [b64_roundtrip M hbytes]

/-- Claim C7, counterexample.  For a 4093-byte message the GET path hands
the full message to `resolveDoH` while the POST path reads the body
through a 4092-byte limit and hands over a truncated message, so the two
paths deliver different byte sequences — and, in an environment whose
unpack step accepts only the full message, different reply bytes. -/
theorem doh_get_post_divergence :
    classifyRequest (dohGetRequest oversizedMsg) = .toDoH oversizedMsg ∧
    classifyRequest (dohPostRequest oversizedMsg) =
      .toDoH (oversizedMsg.take maxBodySize) ∧
    oversizedMsg.take maxBodySize ≠ oversizedMsg ∧
    serverResolve strictDohEnv (dohGetRequest oversizedMsg) ≠
      serverResolve strictDohEnv (dohPostRequest oversizedMsg) := by
  have hbytes : ∀ x ∈ oversizedMsg, x < 256 := by
    intro x hx
    rw [List.eq_of_mem_replicate hx]
    omega
  have hlen : oversizedMsg.length = 4093 := by
    unfold oversizedMsg
    rw [List.length_replicate]
  have hne : oversizedMsg ≠ [] := by
    intro h
    rw [h] at hlen
    simp at hlen
  have hget : classifyRequest (dohGetRequest oversizedMsg) = .toDoH oversizedMsg :=
    classify_get_encoded oversizedMsg hbytes hne
  have hpost : classifyRequest (dohPostRequest oversizedMsg) =
      .toDoH (oversizedMsg.take maxBodySize) := rfl
  have hlentake : (oversizedMsg.take maxBodySize).length = 4092 := by
    rw [List.length_take, hlen]
    unfold maxBodySize
    omega
  have htake : oversizedMsg.take maxBodySize ≠ oversizedMsg := by
    intro h
    rw [h, hlen] at hlentake
    omega
  refine ⟨hget, hpost, htake, ?_⟩
  have e1 : serverResolve strictDohEnv (dohGetRequest oversizedMsg) =
      (statusOK, [0, 1]) := by
    unfold serverResolve
    rw [hget]
    unfold resolveDoH strictDohEnv
    dsimp only
    rw [if_pos hlen]
  have e2 : serverResolve strictDohEnv (dohPostRequest oversizedMsg) =
      (statusBadRequest, []) := by
    unfold serverResolve
    rw [hpost]
    unfold resolveDoH strictDohEnv
    dsimp only
    rw [if_neg (show ¬(oversizedMsg.take maxBodySize).length = 4093 from by
      rw [hlentake]; omega)]
  rw [e1, e2]
  decide

/-- Claim C7, amended.  For every non-empty DNS message `M` of at most
4092 bytes, a GET with `dns` set to the unpadded base64url encoding of
`M` produces the same reply bytes as a POST with body `M` and Content-Type
`application/dns-message`: both paths deliver `M` itself to `resolveDoH`.
Beyond 4092 bytes the POST body is truncated and the paths can diverge. -/
theorem doh_get_post_agree (env : DohEnv) (M : List Nat)
    (hbytes : ∀ x ∈ M, x < 256) (hne : M ≠ [])
    (hlen : M.length ≤ maxBodySize) :
    classifyRequest (dohGetRequest M) = .toDoH M ∧
    classifyRequest (dohPostRequest M) = .toDoH M ∧
    serverResolve env (dohGetRequest M) = serverResolve env (dohPostRequest M) := by
  have hget := classify_get_encoded M hbytes hne
  have hpost : classifyRequest (dohPostRequest M) = .toDoH M := by
    have : classifyRequest (dohPostRequest M) = .toDoH (M.take maxBodySize) := rfl
    rw [this, List.take_of_length_le hlen]
  refine ⟨hget, hpost, ?_⟩
  unfold serverResolve
  rw [hget, hpost]

/-- Exercises `doh_get_post_agree` on a one-byte message. -/
theorem doh_get_post_agree_witness :
    serverResolve plainDohEnv (dohGetRequest [0]) =
      serverResolve plainDohEnv (dohPostRequest [0]) :=
  (doh_get_post_agree plainDohEnv [0] (by decide) (by decide) (by decide)).2.2

end Dnss
